import Mathlib

/-!
Shallow embedding of the Student-Drive-MultiModal-RAG layout / worker / workflow
core (layout_engine.py, worker_manager.py, pipeline_orchasterator.py,
workflow.py), with proofs of the geometric, merge, worker-pool and state-machine
properties stated in the specification.

Python floats are modelled as rationals, Python dict-shaped blocks as fixed
records, and the worker subprocess environment as explicit state records.
-/

/-- Axis-aligned box with corner coordinates, modelling the 4-element `bbox`
lists of layout_engine.py. Coordinates are rationals. -/
structure Box where
  x0 : ℚ
  y0 : ℚ
  x1 : ℚ
  y1 : ℚ
deriving DecidableEq, Repr

/-- Area expression `(box[2] - box[0]) * (box[3] - box[1])`, as computed for
`boxAArea` and `boxBArea` inside `HybridLayoutEngine.calculate_iou` and
`calculate_intersection`. -/
def boxArea (b : Box) : ℚ := (b.x1 - b.x0) * (b.y1 - b.y0)

/-- Intersection-area expression
`max(0, xB - xA) * max(0, yB - yA)` with `xA = max(a[0], b[0])`,
`xB = min(a[2], b[2])`, `yA = max(a[1], b[1])`, `yB = min(a[3], b[3])`,
shared by `calculate_iou` and `calculate_intersection` in layout_engine.py. -/
def interArea (a b : Box) : ℚ :=
  max 0 (min a.x1 b.x1 - max a.x0 b.x0) * max 0 (min a.y1 b.y1 - max a.y0 b.y0)

/-- `HybridLayoutEngine.calculate_iou` (layout_engine.py lines 95-104):
intersection area divided by the smaller of the two box areas, returning 0
when the smaller area is 0. -/
def calculate_iou (boxA boxB : Box) : ℚ :=
  if min (boxArea boxA) (boxArea boxB) = 0 then 0
  else interArea boxA boxB / min (boxArea boxA) (boxArea boxB)

/-- `HybridLayoutEngine.calculate_intersection` (layout_engine.py lines
106-115): the containment score, intersection area divided by `boxB`'s own
area, returning 0 when that area is 0. -/
def calculate_intersection (boxA boxB : Box) : ℚ :=
  if boxArea boxB = 0 then 0 else interArea boxA boxB / boxArea boxB

/-- Standard intersection-over-union, written from the specification's words
("standard IoU on two boxes; returns 0 if either area is 0"): intersection
area over union area. Stated only to compare with `calculate_iou`. -/
def standard_iou_spec (boxA boxB : Box) : ℚ :=
  if boxArea boxA = 0 ∨ boxArea boxB = 0 then 0
  else interArea boxA boxB / (boxArea boxA + boxArea boxB - interArea boxA boxB)

/-- A well-formed box of strictly positive area. -/
def posArea (b : Box) : Prop := b.x0 < b.x1 ∧ b.y0 < b.y1

instance (b : Box) : Decidable (posArea b) := by unfold posArea; infer_instance

/-- Two boxes are non-overlapping when they are separated along some axis. -/
def nonOverlapping (a b : Box) : Prop :=
  a.x1 ≤ b.x0 ∨ b.x1 ≤ a.x0 ∨ a.y1 ≤ b.y0 ∨ b.y1 ≤ a.y0

instance (a b : Box) : Decidable (nonOverlapping a b) := by
  unfold nonOverlapping; infer_instance

lemma interArea_comm (a b : Box) : interArea a b = interArea b a := by
  simp [interArea, min_comm, max_comm]

lemma interArea_nonneg (a b : Box) : 0 ≤ interArea a b :=
  mul_nonneg (le_max_left 0 _) (le_max_left 0 _)

lemma calculate_iou_of_interArea_eq_zero {a b : Box} (h : interArea a b = 0) :
    calculate_iou a b = 0 := by
  unfold calculate_iou
  split_ifs with hmin
  · rfl
  · rw [h, zero_div]

lemma interArea_eq_zero_of_nonOverlapping {a b : Box} (h : nonOverlapping a b) :
    interArea a b = 0 := by
  unfold interArea
  rcases h with h | h | h | h
  · exact mul_eq_zero_of_left
      (max_eq_left (by linarith [min_le_left a.x1 b.x1, le_max_right a.x0 b.x0])) _
  · exact mul_eq_zero_of_left
      (max_eq_left (by linarith [min_le_right a.x1 b.x1, le_max_left a.x0 b.x0])) _
  · exact mul_eq_zero_of_right _
      (max_eq_left (by linarith [min_le_left a.y1 b.y1, le_max_right a.y0 b.y0]))
  · exact mul_eq_zero_of_right _
      (max_eq_left (by linarith [min_le_right a.y1 b.y1, le_max_left a.y0 b.y0]))

lemma interArea_eq_zero_of_boxArea_left {a b : Box} (h : boxArea a = 0) :
    interArea a b = 0 := by
  unfold boxArea at h
  rcases mul_eq_zero.mp h with h0 | h0
  · exact mul_eq_zero_of_left
      (max_eq_left (by linarith [min_le_left a.x1 b.x1, le_max_left a.x0 b.x0])) _
  · exact mul_eq_zero_of_right _
      (max_eq_left (by linarith [min_le_left a.y1 b.y1, le_max_left a.y0 b.y0]))

lemma interArea_self_of_posArea {a : Box} (h : posArea a) :
    interArea a a = boxArea a := by
  obtain ⟨hx, hy⟩ := h
  unfold interArea boxArea
  rw [min_self, min_self, max_self, max_self,
    max_eq_right (by linarith), max_eq_right (by linarith)]

lemma boxArea_pos_of_posArea {a : Box} (h : posArea a) : 0 < boxArea a := by
  obtain ⟨hx, hy⟩ := h
  exact mul_pos (by linarith) (by linarith)

/-- C1 (amended): `calculate_iou` is symmetric; it is 1 on any well-formed box
of positive area paired with itself; it is 0 on non-overlapping boxes; and it
is 0 whenever either box has area 0. (It divides by the smaller of the two
areas, not by the union, so it is not the standard IoU.) -/
theorem calculate_iou_props (a b : Box) :
    calculate_iou a b = calculate_iou b a ∧
    (posArea a → calculate_iou a a = 1) ∧
    (nonOverlapping a b → calculate_iou a b = 0) ∧
    (boxArea a = 0 ∨ boxArea b = 0 → calculate_iou a b = 0) := by
  refine ⟨?_, ?_, ?_, ?_⟩
  · unfold calculate_iou
    rw [interArea_comm, min_comm]
  · intro h
    have hpos := boxArea_pos_of_posArea h
    unfold calculate_iou
    rw [min_self, if_neg (by linarith), interArea_self_of_posArea h,
      div_self (by linarith)]
  · intro h
    exact calculate_iou_of_interArea_eq_zero (interArea_eq_zero_of_nonOverlapping h)
  · intro h
    rcases h with h | h
    · exact calculate_iou_of_interArea_eq_zero (interArea_eq_zero_of_boxArea_left h)
    · apply calculate_iou_of_interArea_eq_zero
      rw [interArea_comm]
      exact interArea_eq_zero_of_boxArea_left h

/-- C1 witness: the amended properties evaluated at concrete boxes. -/
theorem calculate_iou_props_witness :
    calculate_iou ⟨0, 0, 4, 4⟩ ⟨10, 0, 14, 4⟩ = calculate_iou ⟨10, 0, 14, 4⟩ ⟨0, 0, 4, 4⟩ ∧
    calculate_iou ⟨0, 0, 4, 4⟩ ⟨0, 0, 4, 4⟩ = 1 ∧
    calculate_iou ⟨0, 0, 4, 4⟩ ⟨10, 0, 14, 4⟩ = 0 ∧
    calculate_iou ⟨0, 0, 4, 4⟩ ⟨5, 5, 5, 9⟩ = 0 := by
  obtain ⟨h1, h2, h3, -⟩ := calculate_iou_props ⟨0, 0, 4, 4⟩ ⟨10, 0, 14, 4⟩
  obtain ⟨-, -, -, h4⟩ := calculate_iou_props ⟨0, 0, 4, 4⟩ ⟨5, 5, 5, 9⟩
  exact ⟨h1, h2 (by decide), h3 (by decide), h4 (by norm_num [boxArea])⟩

/-- C1 counterexample: on box A = [0,0,2,2] and B = [0,0,1,1] the code's
`calculate_iou` returns 1 (intersection over the smaller area) while the
standard intersection-over-union of the same boxes is 1/4, so `calculate_iou`
does not compute the standard IoU. -/
theorem calculate_iou_not_standard :
    calculate_iou ⟨0, 0, 2, 2⟩ ⟨0, 0, 1, 1⟩ = 1 ∧
    standard_iou_spec ⟨0, 0, 2, 2⟩ ⟨0, 0, 1, 1⟩ = 1 / 4 ∧
    calculate_iou ⟨0, 0, 2, 2⟩ ⟨0, 0, 1, 1⟩ ≠
      standard_iou_spec ⟨0, 0, 2, 2⟩ ⟨0, 0, 1, 1⟩ := by
  refine ⟨?_, ?_, ?_⟩ <;>
    norm_num [calculate_iou, standard_iou_spec, interArea, boxArea, min_def, max_def]

lemma interArea_eq_zero_of_boxArea_right_neg {a b : Box} (h : boxArea b < 0) :
    interArea a b = 0 := by
  have hcase : b.x1 - b.x0 < 0 ∨ b.y1 - b.y0 < 0 := by
    by_contra hc
    push_neg at hc
    unfold boxArea at h
    nlinarith [hc.1, hc.2]
  rcases hcase with h0 | h0
  · exact mul_eq_zero_of_left
      (max_eq_left (by linarith [min_le_right a.x1 b.x1, le_max_right a.x0 b.x0])) _
  · exact mul_eq_zero_of_right _
      (max_eq_left (by linarith [min_le_right a.y1 b.y1, le_max_right a.y0 b.y0]))

lemma interArea_le_boxArea_right {a b : Box} (hpos : 0 < boxArea b) :
    interArea a b ≤ boxArea b := by
  by_cases hx : 0 < b.x1 - b.x0
  · have hy : 0 < b.y1 - b.y0 := by
      unfold boxArea at hpos
      nlinarith
    have h1 : max 0 (min a.x1 b.x1 - max a.x0 b.x0) ≤ b.x1 - b.x0 :=
      max_le hx.le (by linarith [min_le_right a.x1 b.x1, le_max_right a.x0 b.x0])
    have h2 : max 0 (min a.y1 b.y1 - max a.y0 b.y0) ≤ b.y1 - b.y0 :=
      max_le hy.le (by linarith [min_le_right a.y1 b.y1, le_max_right a.y0 b.y0])
    unfold interArea boxArea
    exact mul_le_mul h1 h2 (le_max_left 0 _) hx.le
  · push_neg at hx
    have h0 : interArea a b = 0 := mul_eq_zero_of_left
      (max_eq_left (by linarith [min_le_right a.x1 b.x1, le_max_right a.x0 b.x0])) _
    rw [h0]
    exact hpos.le

lemma interArea_self_div_nonpos {a b : Box} (hneg : boxArea b < 0) :
    interArea a b / boxArea b = 0 := by
  rw [interArea_eq_zero_of_boxArea_right_neg hneg, zero_div]

/-- C6 (amended): the containment score `calculate_intersection` always lies
in [0,1] (for every box pair, degenerate ones included), equals 1 on a
well-formed box of positive area paired with itself, and returns 0 whenever
the denominator (the contained box's area) is 0. No exception is possible:
the function is total. (The code performs no up-front filtering of degenerate
boxes; the zero-denominator guard alone prevents division by zero.) -/
theorem containment_props (a b : Box) :
    0 ≤ calculate_intersection a b ∧ calculate_intersection a b ≤ 1 ∧
    (posArea a → calculate_intersection a a = 1) ∧
    (boxArea b = 0 → calculate_intersection a b = 0) := by
  refine ⟨?_, ?_, ?_, ?_⟩
  · unfold calculate_intersection
    split_ifs with h
    · exact le_refl 0
    · rcases lt_trichotomy (boxArea b) 0 with hneg | hz | hpos
      · rw [interArea_self_div_nonpos hneg]
      · exact absurd hz h
      · exact div_nonneg (interArea_nonneg a b) hpos.le
  · unfold calculate_intersection
    split_ifs with h
    · exact zero_le_one
    · rcases lt_trichotomy (boxArea b) 0 with hneg | hz | hpos
      · rw [interArea_self_div_nonpos hneg]
        exact zero_le_one
      · exact absurd hz h
      · rw [div_le_one hpos]
        exact interArea_le_boxArea_right hpos
  · intro h
    have hpos := boxArea_pos_of_posArea h
    unfold calculate_intersection
    rw [if_neg (by linarith), interArea_self_of_posArea h, div_self (by linarith)]
  · intro h
    unfold calculate_intersection
    rw [if_pos h]

/-- C6 witness: the containment properties evaluated at concrete boxes,
including a degenerate (zero-area) contained box. -/
theorem containment_props_witness :
    0 ≤ calculate_intersection ⟨0, 0, 8, 8⟩ ⟨2, 2, 6, 6⟩ ∧
    calculate_intersection ⟨0, 0, 8, 8⟩ ⟨2, 2, 6, 6⟩ ≤ 1 ∧
    calculate_intersection ⟨0, 0, 8, 8⟩ ⟨0, 0, 8, 8⟩ = 1 ∧
    calculate_intersection ⟨0, 0, 8, 8⟩ ⟨3, 1, 3, 7⟩ = 0 := by
  obtain ⟨h1, h2, h3, -⟩ := containment_props ⟨0, 0, 8, 8⟩ ⟨2, 2, 6, 6⟩
  obtain ⟨-, -, -, h4⟩ := containment_props ⟨0, 0, 8, 8⟩ ⟨3, 1, 3, 7⟩
  exact ⟨h1, h2, h3 (by decide), h4 (by norm_num [boxArea])⟩

/-- Final layout block as built by `HybridLayoutEngine.intelligent_merge` and
consumed by `merge_consecutive_blocks`: the dict
`{type, bbox, action, content}` of layout_engine.py. -/
structure Block where
  type : String
  bbox : Box
  action : String
  content : String
deriving DecidableEq, Repr

/-- Base block produced by the file handlers (process_pdf and friends):
the dict `{bbox, type, text}` fed to `intelligent_merge`. -/
structure BaseBlock where
  bbox : Box
  type : String
  text : String
deriving DecidableEq, Repr

/-- Detector output consumed by `intelligent_merge`: the dicts produced by
`detect_tables` / `detect_handwriting`, of which only `bbox` and `conf` are
carried (`type` and `source` are never read by the merge). -/
structure Detection where
  bbox : Box
  conf : ℚ
deriving DecidableEq, Repr

/-- Membership of a block type in `["text", "title"]`, as tested by the
`is_text_merge` condition of `merge_consecutive_blocks`. -/
def textLike (t : String) : Bool := t == "text" || t == "title"

/-- Merge condition of `merge_consecutive_blocks` (layout_engine.py line 129):
vertical gap below 50 and (both blocks text-like, or exactly the same type). -/
def canMerge (current next_b : Block) : Bool :=
  let is_text_merge := textLike current.type && textLike next_b.type
  let is_same_type := current.type == next_b.type
  decide (next_b.bbox.y0 - current.bbox.y1 < 50) && (is_text_merge || is_same_type)

/-- Effect of one merge in `merge_consecutive_blocks` (lines 130-137): bbox
becomes the union, contents are joined with a line break, the type becomes
"text" for a text-like merge and is otherwise kept, and the first block's
`action` is kept (the dict is mutated in place, so its other keys survive). -/
def mergeBlocks (current next_b : Block) : Block :=
  { type := if textLike current.type && textLike next_b.type then "text" else current.type
    bbox := ⟨min current.bbox.x0 next_b.bbox.x0, min current.bbox.y0 next_b.bbox.y0,
             max current.bbox.x1 next_b.bbox.x1, max current.bbox.y1 next_b.bbox.y1⟩
    action := current.action
    content := current.content ++ "\n" ++ next_b.content }

/-- Accumulating walk of `merge_consecutive_blocks` over the sorted tail:
`current` absorbs the next block while `canMerge` holds, otherwise it is
appended and the walk restarts from the next block. -/
def mergeLoop (current : Block) : List Block → List Block
  | [] => [current]
  | next_b :: rest =>
      if canMerge current next_b then mergeLoop (mergeBlocks current next_b) rest
      else current :: mergeLoop next_b rest

/-- Sort key relation of `sorted(blocks, key=lambda b: b["bbox"][1])`. -/
def blockLE (a b : Block) : Prop := a.bbox.y0 ≤ b.bbox.y0

instance : DecidableRel blockLE := fun a b => by unfold blockLE; infer_instance

instance : IsTotal Block blockLE := ⟨fun a b => le_total a.bbox.y0 b.bbox.y0⟩

instance : IsTrans Block blockLE := ⟨fun _ _ _ h1 h2 => le_trans h1 h2⟩

/-- Walk of `merge_consecutive_blocks` over the already-sorted list: empty
input yields empty output, otherwise the loop starts from the first block. -/
def mergeStart : List Block → List Block
  | [] => []
  | b :: rest => mergeLoop b rest

/-- `HybridLayoutEngine.merge_consecutive_blocks` (layout_engine.py lines
117-142). Python's `sorted` is a stable sort by the top edge; insertion sort
with the non-strict key order produces the identical stable ordering. -/
def merge_consecutive_blocks (blocks : List Block) : List Block :=
  mergeStart (List.insertionSort blockLE blocks)

/-- Containment test `calculate_intersection(t_bbox, p_block["bbox"]) > 0.5`
used by step 1 of `intelligent_merge`. -/
def containedIn (t_bbox : Box) (p : BaseBlock) : Bool :=
  decide (1 / 2 < calculate_intersection t_bbox p.bbox)

/-- Step 1 of `intelligent_merge` (lines 149-167): one table block per table
detection, containing the newline-joined text of every contained base block,
or the `[EMPTY_TABLE]` sentinel when that joined text is empty (falsy). -/
def tableStage (base_blocks : List BaseBlock) (table_blocks : List Detection) :
    List Block :=
  table_blocks.map fun t =>
    let full_table_text :=
      String.intercalate "\n" ((base_blocks.filter (containedIn t.bbox)).map BaseBlock.text)
    { type := "table", bbox := t.bbox, action := "extract_table_logic",
      content := if full_table_text == "" then "[EMPTY_TABLE]" else full_table_text }

/-- Step 2 of `intelligent_merge` (lines 170-183): every base block consumed
by no table detection becomes a standalone block; image blocks get action
`crop_image`, all others `extract_text`. Consumption is by the same
containment test as step 1 (the code records indices; the predicate is pure,
so filtering by it is equivalent). -/
def remainingStage (base_blocks : List BaseBlock) (table_blocks : List Detection) :
    List Block :=
  (base_blocks.filter fun p => !(table_blocks.any fun t => containedIn t.bbox p)).map
    fun p =>
      { type := p.type, bbox := p.bbox,
        action := if p.type == "image" then "crop_image" else "extract_text",
        content := p.text }

/-- Handwriting block appended by step 3 of `intelligent_merge`. -/
def hwBlock (b : Box) : Block :=
  { type := "handwriting_region", bbox := b, action := "send_to_ocr",
    content := "[HANDWRITING_IMAGE]" }

/-- One iteration of step 3 of `intelligent_merge` (lines 186-195): the
handwriting detection is appended as a `handwriting_region` block exactly when
its `calculate_iou` with every block gathered so far is at most 0.2. -/
def hwStep (final_blocks : List Block) (hw : Detection) : List Block :=
  if final_blocks.all fun fb => decide (calculate_iou hw.bbox fb.bbox ≤ 1 / 5) then
    final_blocks ++ [hwBlock hw.bbox]
  else final_blocks

/-- Step 3 of `intelligent_merge`: fold of `hwStep` over the handwriting
detections, each one checked against the list grown so far. -/
def hwStage (final_blocks : List Block) (hw_blocks : List Detection) : List Block :=
  hw_blocks.foldl hwStep final_blocks

/-- `HybridLayoutEngine.intelligent_merge` (layout_engine.py lines 144-197):
table stage, remaining base blocks, handwriting isolation, then the final
consecutive-merge pass. -/
def intelligent_merge (base_blocks : List BaseBlock) (table_blocks : List Detection)
    (hw_blocks : List Detection) : List Block :=
  merge_consecutive_blocks
    (hwStage (tableStage base_blocks table_blocks ++ remainingStage base_blocks table_blocks)
      hw_blocks)

lemma textLike_text : textLike "text" = true := by decide

lemma canMerge_eq_true_iff (a b : Block) :
    canMerge a b = true ↔
      (b.bbox.y0 - a.bbox.y1 < 50) ∧
        ((textLike a.type = true ∧ textLike b.type = true) ∨ a.type = b.type) := by
  simp [canMerge, Bool.and_eq_true, Bool.or_eq_true, decide_eq_true_eq, beq_iff_eq]

lemma canMerge_false_transfer {cur nxt h : Block}
    (hm : canMerge cur nxt = false) (hy : h.bbox.y0 = nxt.bbox.y0)
    (ht : h.type = nxt.type ∨ (textLike nxt.type = true ∧ h.type = "text")) :
    canMerge cur h = false := by
  rw [Bool.eq_false_iff] at hm ⊢
  intro hch
  apply hm
  rw [canMerge_eq_true_iff] at hch ⊢
  obtain ⟨hgap, hcompat⟩ := hch
  rw [hy] at hgap
  refine ⟨hgap, ?_⟩
  rcases ht with ht | ⟨htl, ht⟩
  · rw [ht] at hcompat
    exact hcompat
  · rcases hcompat with ⟨hca, _⟩ | hceq
    · exact Or.inl ⟨hca, htl⟩
    · refine Or.inl ⟨?_, htl⟩
      rw [hceq, ht]
      exact textLike_text

lemma mergeBlocks_y0 (cur nxt : Block) (h : blockLE cur nxt) :
    (mergeBlocks cur nxt).bbox.y0 = cur.bbox.y0 := by
  simp only [mergeBlocks]
  exact min_eq_left h

/-- Invariant of the merge walk over a sorted tail: the output is nonempty,
its head keeps the starting block's top edge, the head's type is the starting
type except that a text-like start may end as "text", the output stays sorted,
and no adjacent output pair satisfies the merge condition. -/
lemma mergeLoop_spec :
    ∀ (l : List Block) (cur : Block),
      (∀ b ∈ l, blockLE cur b) → l.Sorted blockLE →
      ∃ h t, mergeLoop cur l = h :: t ∧
        h.bbox.y0 = cur.bbox.y0 ∧
        (h.type = cur.type ∨ (textLike cur.type = true ∧ h.type = "text")) ∧
        (h :: t).Sorted blockLE ∧
        (h :: t).Chain' (fun a b => canMerge a b = false)
  | [], cur => by
    intro _ _
    exact ⟨cur, [], rfl, rfl, Or.inl rfl, List.sorted_singleton cur, List.chain'_singleton cur⟩
  | nxt :: rest, cur => by
    intro hall hsort
    have hcurnxt : blockLE cur nxt := hall nxt (List.mem_cons_self nxt rest)
    by_cases hc : canMerge cur nxt = true
    · have hstep : mergeLoop cur (nxt :: rest) = mergeLoop (mergeBlocks cur nxt) rest := by
        simp [mergeLoop, hc]
      have hally0 : ∀ b ∈ rest, blockLE (mergeBlocks cur nxt) b := by
        intro b hb
        have : blockLE cur b := hall b (List.mem_cons_of_mem nxt hb)
        unfold blockLE at this ⊢
        rw [mergeBlocks_y0 cur nxt hcurnxt]
        exact this
      obtain ⟨h, t, hml, hy0, htype, hs, hch⟩ :=
        mergeLoop_spec rest (mergeBlocks cur nxt) hally0 hsort.of_cons
      refine ⟨h, t, by rw [hstep, hml], ?_, ?_, hs, hch⟩
      · rw [hy0, mergeBlocks_y0 cur nxt hcurnxt]
      · by_cases htm : textLike cur.type && textLike nxt.type
        · have hmt : (mergeBlocks cur nxt).type = "text" := by
            simp only [mergeBlocks, htm, if_true]
          rcases htype with htype | ⟨-, htype⟩
        
          · exact Or.inr ⟨(Bool.and_eq_true _ _ |>.mp htm).1, by rw [htype, hmt]⟩
          · exact Or.inr ⟨(Bool.and_eq_true _ _ |>.mp htm).1, htype⟩
        · have hmt : (mergeBlocks cur nxt).type = cur.type := by
            simp only [mergeBlocks, Bool.not_eq_true] at htm ⊢
            rw [htm, if_neg (by simp)]
          rw [hmt] at htype
          exact htype
    · rw [Bool.not_eq_true] at hc
      have hstep : mergeLoop cur (nxt :: rest) = cur :: mergeLoop nxt rest := by
        simp [mergeLoop, hc]
      obtain ⟨h, t, hml, hy0, htype, hs, hch⟩ :=
        mergeLoop_spec rest nxt (List.rel_of_sorted_cons hsort) hsort.of_cons
      refine ⟨cur, h :: t, by rw [hstep, hml], rfl, Or.inl rfl, ?_, ?_⟩
      · rw [List.sorted_cons]
        refine ⟨?_, hs⟩
        intro x hx
        rcases List.mem_cons.mp hx with hx | hx
        · subst hx
          unfold blockLE
          rw [hy0]
          exact hcurnxt
        · have h1 : blockLE h x := List.rel_of_sorted_cons hs x hx
          unfold blockLE at h1 hcurnxt ⊢
          rw [hy0] at h1
          linarith
      · rw [List.chain'_cons]
        exact ⟨canMerge_false_transfer hc hy0 htype, hch⟩

/-- Walking a list whose adjacent pairs all fail the merge condition changes
nothing. -/
lemma mergeLoop_of_chain_no_merge :
    ∀ (t : List Block) (h : Block),
      (h :: t).Chain' (fun a b => canMerge a b = false) → mergeLoop h t = h :: t
  | [], h => by
    intro _
    rfl
  | b :: t', h => by
    intro hch
    rw [List.chain'_cons] at hch
    have : mergeLoop h (b :: t') = h :: mergeLoop b t' := by
      simp [mergeLoop, hch.1]
    rw [this, mergeLoop_of_chain_no_merge t' b hch.2]

/-- Output of `merge_consecutive_blocks` is sorted by top edge and no adjacent
output pair satisfies the merge condition. -/
lemma merge_consecutive_blocks_sorted_chain (blocks : List Block) :
    (merge_consecutive_blocks blocks).Sorted blockLE ∧
      (merge_consecutive_blocks blocks).Chain' (fun a b => canMerge a b = false) := by
  have hsorted := List.sorted_insertionSort blockLE blocks
  unfold merge_consecutive_blocks
  cases heq : List.insertionSort blockLE blocks with
  | nil => exact ⟨List.sorted_nil, List.chain'_nil⟩
  | cons b rest =>
    rw [heq] at hsorted
    obtain ⟨h, t, hml, -, -, hs, hch⟩ :=
      mergeLoop_spec rest b (List.rel_of_sorted_cons hsorted) hsorted.of_cons
    simp only [mergeStart, hml]
    exact ⟨hs, hch⟩

/-- C4: `merge_consecutive_blocks` is idempotent: applied to its own output it
returns that output unchanged. -/
theorem merge_consecutive_blocks_idempotent (blocks : List Block) :
    merge_consecutive_blocks (merge_consecutive_blocks blocks) =
      merge_consecutive_blocks blocks := by
  obtain ⟨hs, hch⟩ := merge_consecutive_blocks_sorted_chain blocks
  have h1 : merge_consecutive_blocks (merge_consecutive_blocks blocks) =
      mergeStart (List.insertionSort blockLE (merge_consecutive_blocks blocks)) := rfl
  rw [h1, hs.insertionSort_eq]
  cases heq : merge_consecutive_blocks blocks with
  | nil => rfl
  | cons h t =>
    rw [heq] at hch
    exact mergeLoop_of_chain_no_merge t h hch

/-- C2 (amended): in the table stage of `intelligent_merge`, before the final
consecutive-merge pass, every table detection contributes exactly one table
block (the stage has exactly one output block per detection), and a detection
containing no base block (no base block passes the containment > 0.5 test)
gets content exactly `[EMPTY_TABLE]` with action `extract_table_logic`. -/
theorem tableStage_empty_table (base_blocks : List BaseBlock)
    (table_blocks : List Detection) (i : ℕ) (hi : i < table_blocks.length)
    (hno : ∀ b ∈ base_blocks, containedIn table_blocks[i].bbox b = false) :
    (tableStage base_blocks table_blocks).length = table_blocks.length ∧
    (tableStage base_blocks table_blocks).get ⟨i, by simpa [tableStage] using hi⟩ =
      ⟨"table", table_blocks[i].bbox, "extract_table_logic",
        "[EMPTY_TABLE]"⟩ := by
  constructor
  · simp [tableStage]
  · have hfil : base_blocks.filter (containedIn table_blocks[i].bbox) = [] :=
      List.filter_eq_nil_iff.mpr fun b hb => by simp [hno b hb]
    simp only [tableStage, List.get_eq_getElem, List.getElem_map]
    simp [hfil, String.intercalate]

/-- C2 witness: a lone table detection far from the only base block yields the
`[EMPTY_TABLE]` block in the table stage. -/
theorem tableStage_empty_table_witness :
    (tableStage [⟨⟨0, 0, 4, 4⟩, "text", "hello"⟩] [⟨⟨100, 100, 200, 200⟩, 9/10⟩]).length = 1 ∧
    (tableStage [⟨⟨0, 0, 4, 4⟩, "text", "hello"⟩] [⟨⟨100, 100, 200, 200⟩, 9/10⟩]).get
        ⟨0, by norm_num [tableStage]⟩ =
      ⟨"table", ⟨100, 100, 200, 200⟩, "extract_table_logic", "[EMPTY_TABLE]"⟩ := by
  have h := tableStage_empty_table [⟨⟨0, 0, 4, 4⟩, "text", "hello"⟩]
    [⟨⟨100, 100, 200, 200⟩, 9/10⟩] 0 (by norm_num)
    (by
      intro b hb
      rw [List.mem_singleton] at hb
      subst hb
      norm_num [containedIn, calculate_intersection, interArea, boxArea, min_def, max_def])
  exact h

/-- C2 counterexample: two vertically adjacent table detections with no
contained base blocks each get an `[EMPTY_TABLE]` block, but the final
consecutive-merge pass of `intelligent_merge` merges the two table blocks, so
the merge engine's output holds no table block whose content is exactly
`[EMPTY_TABLE]` for either detection — refuting the claim at the level of the
engine's output. -/
theorem intelligent_merge_empty_tables_merged :
    intelligent_merge [] [⟨⟨0, 0, 10, 10⟩, 9/10⟩, ⟨⟨0, 20, 10, 30⟩, 9/10⟩] [] =
      [⟨"table", ⟨0, 0, 10, 30⟩, "extract_table_logic",
        "[EMPTY_TABLE]\n[EMPTY_TABLE]"⟩] ∧
    ∀ b ∈ intelligent_merge [] [⟨⟨0, 0, 10, 10⟩, 9/10⟩, ⟨⟨0, 20, 10, 30⟩, 9/10⟩] [],
      b.content ≠ "[EMPTY_TABLE]" := by
  have h : intelligent_merge [] [⟨⟨0, 0, 10, 10⟩, 9/10⟩, ⟨⟨0, 20, 10, 30⟩, 9/10⟩] [] =
      [⟨"table", ⟨0, 0, 10, 30⟩, "extract_table_logic",
        "[EMPTY_TABLE]\n[EMPTY_TABLE]"⟩] := by
    norm_num [intelligent_merge, tableStage, remainingStage, hwStage, containedIn,
      merge_consecutive_blocks, mergeStart, mergeLoop, List.insertionSort,
      List.orderedInsert, blockLE, canMerge, mergeBlocks, textLike,
      String.intercalate, min_def, max_def]
    decide
  refine ⟨h, ?_⟩
  rw [h]
  intro b hb
  rw [List.mem_singleton] at hb
  subst hb
  decide

/-- C3: one step of the handwriting-isolation stage. A handwriting detection
whose `calculate_iou` with some gathered block exceeds 0.2 adds nothing; one
whose `calculate_iou` with every gathered block is at most 0.2 appends exactly
one `handwriting_region` block with action `send_to_ocr`. -/
theorem hwStep_characterization (final_blocks : List Block) (hw : Detection) :
    ((∃ fb ∈ final_blocks, 1 / 5 < calculate_iou hw.bbox fb.bbox) →
        hwStep final_blocks hw = final_blocks) ∧
    ((∀ fb ∈ final_blocks, calculate_iou hw.bbox fb.bbox ≤ 1 / 5) →
        hwStep final_blocks hw = final_blocks ++ [hwBlock hw.bbox]) := by
  constructor
  · intro ⟨fb, hfb, hgt⟩
    unfold hwStep
    rw [if_neg]
    intro hall
    rw [List.all_eq_true] at hall
    have := hall fb hfb
    rw [decide_eq_true_eq] at this
    linarith
  · intro hall
    unfold hwStep
    rw [if_pos]
    rw [List.all_eq_true]
    intro fb hfb
    rw [decide_eq_true_eq]
    exact hall fb hfb

/-- C3 witness: a fully-overlapping handwriting detection is dropped and a
far-away one is appended as a `handwriting_region` block. -/
theorem hwStep_characterization_witness :
    hwStep [⟨"text", ⟨0, 0, 10, 10⟩, "extract_text", "hi"⟩] ⟨⟨0, 0, 10, 10⟩, 4/5⟩ =
      [⟨"text", ⟨0, 0, 10, 10⟩, "extract_text", "hi"⟩] ∧
    hwStep [⟨"text", ⟨0, 0, 10, 10⟩, "extract_text", "hi"⟩] ⟨⟨100, 100, 110, 110⟩, 4/5⟩ =
      [⟨"text", ⟨0, 0, 10, 10⟩, "extract_text", "hi"⟩] ++
        [hwBlock ⟨100, 100, 110, 110⟩] := by
  constructor
  · exact (hwStep_characterization _ _).1
      ⟨⟨"text", ⟨0, 0, 10, 10⟩, "extract_text", "hi"⟩, List.mem_singleton_self _, by
        norm_num [calculate_iou, interArea, boxArea, min_def, max_def]⟩
  · exact (hwStep_characterization _ _).2 fun fb hfb => by
      rw [List.mem_singleton] at hfb
      subst hfb
      norm_num [calculate_iou, interArea, boxArea, min_def, max_def]

/-- C5 (amended): a block passing the merge condition never pairs a table or
handwriting_region with a different type, and the merged block keeps the first
block's type unless both types are text-like ("text" or "title", in any
combination — including title with title), in which case it becomes "text". -/
theorem merge_type_policy (cur nxt : Block) (h : canMerge cur nxt = true) :
    (cur.type = "table" → nxt.type = "table") ∧
    (nxt.type = "table" → cur.type = "table") ∧
    (cur.type = "handwriting_region" → nxt.type = "handwriting_region") ∧
    (nxt.type = "handwriting_region" → cur.type = "handwriting_region") ∧
    ((mergeBlocks cur nxt).type = cur.type ∨
      (textLike cur.type = true ∧ textLike nxt.type = true ∧
        (mergeBlocks cur nxt).type = "text")) := by
  rw [canMerge_eq_true_iff] at h
  obtain ⟨-, hcompat⟩ := h
  refine ⟨?_, ?_, ?_, ?_, ?_⟩
  · intro hc
    rcases hcompat with ⟨h1, -⟩ | heq
    · rw [hc] at h1
      exact absurd h1 (by decide)
    · rw [← heq, hc]
  · intro hc
    rcases hcompat with ⟨-, h2⟩ | heq
    · rw [hc] at h2
      exact absurd h2 (by decide)
    · rw [heq, hc]
  · intro hc
    rcases hcompat with ⟨h1, -⟩ | heq
    · rw [hc] at h1
      exact absurd h1 (by decide)
    · rw [← heq, hc]
  · intro hc
    rcases hcompat with ⟨-, h2⟩ | heq
    · rw [hc] at h2
      exact absurd h2 (by decide)
    · rw [heq, hc]
  · by_cases htm : (textLike cur.type && textLike nxt.type) = true
    · rw [Bool.and_eq_true] at htm
      exact Or.inr ⟨htm.1, htm.2, by simp [mergeBlocks, htm.1, htm.2]⟩
    · exact Or.inl (by simp [mergeBlocks, htm])

/-- C5 witness: two adjacent table blocks satisfy the merge condition, may
only merge with each other's type, and the merge keeps type "table". -/
theorem merge_type_policy_witness :
    canMerge ⟨"table", ⟨0, 0, 10, 10⟩, "extract_table_logic", "a"⟩
        ⟨"table", ⟨0, 20, 10, 30⟩, "extract_table_logic", "b"⟩ = true ∧
    (mergeBlocks ⟨"table", ⟨0, 0, 10, 10⟩, "extract_table_logic", "a"⟩
        ⟨"table", ⟨0, 20, 10, 30⟩, "extract_table_logic", "b"⟩).type = "table" := by
  have hcm : canMerge ⟨"table", ⟨0, 0, 10, 10⟩, "extract_table_logic", "a"⟩
      ⟨"table", ⟨0, 20, 10, 30⟩, "extract_table_logic", "b"⟩ = true := by
    norm_num [canMerge, textLike]
  have h := merge_type_policy _ _ hcm
  rcases h.2.2.2.2 with h5 | ⟨h1, -⟩
  · exact ⟨hcm, h5⟩
  · exact absurd h1 (by decide)

/-- C5 counterexample: merging two "title" blocks — not a text block with a
title block — also changes the type, to "text": all input blocks have type
"title", yet the merged output block has type "text", refuting "merge never
changes block type except text+title → text". -/
theorem merge_title_title_changes_type :
    (∀ b ∈ [(⟨"title", ⟨0, 0, 10, 10⟩, "extract_text", "A"⟩ : Block),
            ⟨"title", ⟨0, 20, 10, 30⟩, "extract_text", "B"⟩], b.type = "title") ∧
    merge_consecutive_blocks
        [⟨"title", ⟨0, 0, 10, 10⟩, "extract_text", "A"⟩,
         ⟨"title", ⟨0, 20, 10, 30⟩, "extract_text", "B"⟩] =
      [⟨"text", ⟨0, 0, 10, 30⟩, "extract_text", "A\nB"⟩] := by
  constructor
  · decide
  · norm_num [merge_consecutive_blocks, mergeStart, mergeLoop, List.insertionSort,
      List.orderedInsert, blockLE, canMerge, mergeBlocks, textLike, min_def, max_def]
    rfl

/-- C6 counterexample: no filtering of degenerate boxes happens before the
containment computation. A zero-area base block participates in the table
containment test (scoring 0 through the zero-denominator guard, hence not
consumed) and survives into the merge engine's output unchanged. -/
theorem degenerate_box_not_filtered :
    intelligent_merge [⟨⟨0, 0, 0, 0⟩, "text", "x"⟩] [⟨⟨0, 0, 10, 10⟩, 9/10⟩] [] =
      [⟨"table", ⟨0, 0, 10, 10⟩, "extract_table_logic", "[EMPTY_TABLE]"⟩,
       ⟨"text", ⟨0, 0, 0, 0⟩, "extract_text", "x"⟩] := by
  norm_num [intelligent_merge, tableStage, remainingStage, hwStage, containedIn,
    calculate_intersection, interArea, boxArea, merge_consecutive_blocks, mergeStart,
    mergeLoop, List.insertionSort, List.orderedInsert, blockLE, canMerge, mergeBlocks,
    textLike, String.intercalate, min_def, max_def]
  decide

/-- JSON value, as produced by `json.loads` on a worker's response line. -/
inductive JVal where
  | null
  | bool (b : Bool)
  | num (q : ℚ)
  | str (s : String)
  | arr (xs : List JVal)
  | obj (kvs : List (String × JVal))
deriving Repr

/-- Observable behaviour of one spawned worker subprocess, as seen through the
`subprocess.Popen` handle: whether `poll()` reports it alive, whether a write
to its stdin succeeds, the single line `stdout.readline()` yields (`none`
models end-of-stream, Python's falsy empty string), and whether the process
exits promptly once it is sent the `EXIT` token. -/
structure ProcHandle where
  running : Bool
  writable : Bool
  responseLine : Option String
  exitsOnExit : Bool
deriving DecidableEq, Repr

/-- Environment of the worker pool: which script files exist on disk, the
behaviour of a process freshly spawned from a given script, and the result of
`json.loads` on a line (`none` models a parse error). -/
structure WorkerEnv where
  scriptExists : String → Bool
  spawn : String → ProcHandle
  jsonLoads : String → Option JVal

/-- Pool state: the `self.workers` dict, name to process handle. A later
binding for the same name shadows an earlier one, as dict assignment does. -/
structure WMState where
  workers : List (String × ProcHandle)
deriving Repr

/-- `WorkerManager.worker_paths` (worker_manager.py lines 10-15). -/
def worker_paths : List (String × String) :=
  [("vlm", "workers/vlm_worker.py"), ("ocr", "workers/ocr_worker.py"),
   ("table", "workers/table_worker.py"), ("audio", "workers/audio_worker.py")]

/-- Python exception escaping to the caller. `fileNotFound none` is the
`FileNotFoundError` raised with `script_path = None` (unknown capability),
`fileNotFound (some path)` the one raised when the script file is missing. -/
inductive PyExn where
  | fileNotFound (scriptPath : Option String)
deriving DecidableEq, Repr

/-- Start branch of `WorkerManager.get_worker` (worker_manager.py lines
22-38): look the capability up in `worker_paths`, raise `FileNotFoundError`
when the name is unknown or the script file does not exist, otherwise spawn
the process and store it in the pool map. -/
def startWorker (env : WorkerEnv) (st : WMState) (name : String) :
    Except PyExn (WMState × ProcHandle) :=
  match worker_paths.lookup name with
  | none => Except.error (PyExn.fileNotFound none)
  | some path =>
      if env.scriptExists path then
        let p := env.spawn path
        Except.ok (⟨(name, p) :: st.workers⟩, p)
      else Except.error (PyExn.fileNotFound (some path))

/-- `WorkerManager.get_worker` (worker_manager.py lines 17-38): reuse the
stored process when it is still running (`poll() is None`), otherwise
(lazily re)start it. -/
def get_worker (env : WorkerEnv) (st : WMState) (name : String) :
    Except PyExn (WMState × ProcHandle) :=
  match st.workers.lookup name with
  | some p => if p.running then Except.ok (st, p) else startWorker env st name
  | none => startWorker env st name

/-- Everything inside the `try` of `WorkerManager.query` (lines 43-51): a
failed write, an empty response line, or unparsable JSON all collapse to the
caught-exception / falsy-response path returning `None`. -/
def procResponse (env : WorkerEnv) (p : ProcHandle) : Option JVal :=
  if p.writable then
    match p.responseLine with
    | none => none
    | some line => env.jsonLoads line
  else none

/-- `WorkerManager.query` (worker_manager.py lines 40-51): `get_worker` runs
outside the `try` block, so its exception propagates; once a handle is
obtained, every failure inside the round trip yields `None`. The payload
itself does not influence the modelled observable behaviour. -/
def query (env : WorkerEnv) (st : WMState) (name : String) (payload : JVal) :
    Except PyExn (WMState × Option JVal) :=
  (get_worker env st name).map fun sp => (sp.1, procResponse env sp.2)

/-- One process after the loop body of `WorkerManager.stop_all` (lines 54-60):
a running process gets `EXIT` written; only a failed write triggers `kill()`.
Nothing waits for the process, so a process that accepts the write but does
not exit keeps running. -/
def stopAllProc (p : ProcHandle) : ProcHandle :=
  if p.running then
    if p.writable then { p with running := !p.exitsOnExit }
    else { p with running := false }
  else p

/-- `WorkerManager.stop_all` (worker_manager.py lines 53-61): loop over the
stored processes, then `self.workers.clear()`. Returns the cleared pool state
together with the final state of each process. -/
def stop_all (st : WMState) : WMState × List ProcHandle :=
  (⟨[]⟩, st.workers.map fun kv => stopAllProc kv.2)

/-- One process after the loop body of `PipelineOrchestrator.stop_workers`
(pipeline_orchasterator.py lines 54-61): write `EXIT`, `wait(timeout=2)`, and
on any exception (unwritable pipe, or the 2-second grace period expiring)
`kill()` — so every path ends with the process not running. -/
def stopWorkersProc (p : ProcHandle) : ProcHandle :=
  if p.writable && p.exitsOnExit then { p with running := false }
  else { p with running := false }

/-- `PipelineOrchestrator.stop_workers`: the four orchestrator process slots
(`None` for a never-started slot) after teardown. -/
def stop_workers (procs : List (Option ProcHandle)) : List (Option ProcHandle) :=
  procs.map (Option.map stopWorkersProc)

/-- C7 (amended): once `get_worker` yields a process handle, `query` never
raises: an unwritable stdin, a missing response line, and malformed JSON each
produce the `None` ("unavailable") result. A stored worker that is no longer
running is transparently restarted (the caller gets the restarted process's
result, not an unavailable sentinel). But when no live worker is stored and
the capability is unknown, `get_worker` runs outside the `try` block and its
`FileNotFoundError` propagates to the caller. -/
theorem query_failure_modes (env : WorkerEnv) (st : WMState) (name : String)
    (payload : JVal) :
    (∀ st2 p, get_worker env st name = Except.ok (st2, p) → p.writable = false →
        query env st name payload = Except.ok (st2, none)) ∧
    (∀ st2 p, get_worker env st name = Except.ok (st2, p) → p.responseLine = none →
        query env st name payload = Except.ok (st2, none)) ∧
    (∀ st2 p line, get_worker env st name = Except.ok (st2, p) →
        p.responseLine = some line → env.jsonLoads line = none →
        query env st name payload = Except.ok (st2, none)) ∧
    (∀ p0 path, st.workers.lookup name = some p0 → p0.running = false →
        worker_paths.lookup name = some path → env.scriptExists path = true →
        query env st name payload =
          Except.ok (⟨(name, env.spawn path) :: st.workers⟩,
            procResponse env (env.spawn path))) ∧
    (st.workers.lookup name = none → worker_paths.lookup name = none →
        query env st name payload = Except.error (PyExn.fileNotFound none)) := by
  refine ⟨?_, ?_, ?_, ?_, ?_⟩
  · intro st2 p hgw hw
    have hres : procResponse env p = none := by
      unfold procResponse
      rw [hw]
      simp
    unfold query
    rw [hgw]
    simp [Except.map, hres]
  · intro st2 p hgw hr
    have hres : procResponse env p = none := by
      unfold procResponse
      rw [hr]
      simp
    unfold query
    rw [hgw]
    simp [Except.map, hres]
  · intro st2 p line hgw hr hj
    have hres : procResponse env p = none := by
      unfold procResponse
      rw [hr]
      simp [hj]
    unfold query
    rw [hgw]
    simp [Except.map, hres]
  · intro p0 path hlk hdead hpath hexists
    unfold query get_worker
    rw [hlk]
    simp only [hdead, Bool.false_eq_true, if_false]
    unfold startWorker
    rw [hpath]
    simp only [hexists, if_true]
    rfl
  · intro hlk hpath
    unfold query get_worker
    rw [hlk]
    unfold startWorker
    rw [hpath]
    rfl

/-- C7 witness: each amended behaviour at concrete environments — a spawned
worker with closed stdin, one with no response line, one answering malformed
JSON, and a transparent restart of a dead stored worker. -/
theorem query_failure_modes_witness :
    query ⟨fun _ => true, fun _ => ⟨true, false, some "r", true⟩, fun _ => none⟩
        ⟨[]⟩ "ocr" (JVal.str "p") =
      Except.ok (⟨[("ocr", ⟨true, false, some "r", true⟩)]⟩, none) ∧
    query ⟨fun _ => true, fun _ => ⟨true, true, none, true⟩, fun _ => none⟩
        ⟨[]⟩ "ocr" (JVal.str "p") =
      Except.ok (⟨[("ocr", ⟨true, true, none, true⟩)]⟩, none) ∧
    query ⟨fun _ => true, fun _ => ⟨true, true, some "not json", true⟩, fun _ => none⟩
        ⟨[]⟩ "ocr" (JVal.str "p") =
      Except.ok (⟨[("ocr", ⟨true, true, some "not json", true⟩)]⟩, none) ∧
    query ⟨fun _ => true, fun _ => ⟨true, true, some "r", true⟩, fun _ => some JVal.null⟩
        ⟨[("ocr", ⟨false, true, some "r", true⟩)]⟩ "ocr" (JVal.str "p") =
      Except.ok (⟨[("ocr", ⟨true, true, some "r", true⟩),
                   ("ocr", ⟨false, true, some "r", true⟩)]⟩, some JVal.null) := by
  refine ⟨?_, ?_, ?_, ?_⟩
  · exact (query_failure_modes _ _ "ocr" (JVal.str "p")).1 _ _ rfl rfl
  · exact (query_failure_modes _ _ "ocr" (JVal.str "p")).2.1 _ _ rfl rfl
  · exact (query_failure_modes _ _ "ocr" (JVal.str "p")).2.2.1 _ _ "not json" rfl rfl rfl
  · exact (query_failure_modes _ _ "ocr" (JVal.str "p")).2.2.2.1 _ "workers/ocr_worker.py"
      rfl rfl rfl rfl

/-- C7 counterexample: with no worker running, `query` raises
`FileNotFoundError` to the caller instead of returning an unavailable result —
for a known capability whose script file is missing on disk, and for an
unknown capability name. -/
theorem query_raises_file_not_found :
    query ⟨fun _ => false, fun _ => ⟨true, true, some "r", true⟩, fun _ => none⟩
        ⟨[]⟩ "ocr" (JVal.str "p") =
      Except.error (PyExn.fileNotFound (some "workers/ocr_worker.py")) ∧
    query ⟨fun _ => true, fun _ => ⟨true, true, some "r", true⟩, fun _ => none⟩
        ⟨[]⟩ "bogus" (JVal.str "p") =
      Except.error (PyExn.fileNotFound none) :=
  ⟨rfl, rfl⟩

/-- C8 (amended): `WorkerManager.stop_all` clears the pool map and sends
`EXIT` to each running writable worker, but never waits: a worker survives
teardown exactly when it was running, writable, and does not exit on `EXIT`
(`kill()` happens only when the write itself fails). The orchestrator's
`stop_workers`, by contrast, waits up to 2 seconds and kills on timeout, so
none of its processes stays running. -/
theorem pool_teardown (st : WMState) (procs : List (Option ProcHandle)) :
    (stop_all st).1.workers = [] ∧
    (stop_all st).2 = st.workers.map (fun kv => stopAllProc kv.2) ∧
    (∀ kv ∈ st.workers,
        (stopAllProc kv.2).running =
          (kv.2.running && (kv.2.writable && !kv.2.exitsOnExit))) ∧
    (∀ op ∈ stop_workers procs, ∀ p, op = some p → p.running = false) := by
  refine ⟨rfl, rfl, ?_, ?_⟩
  · intro kv _
    unfold stopAllProc
    rcases hr : kv.2.running
    · simp [hr]
    · rcases hw : kv.2.writable
      · simp [hr, hw]
      · simp [hr, hw]
  · intro op hop p hp
    unfold stop_workers at hop
    rw [List.mem_map] at hop
    obtain ⟨op0, -, hmap⟩ := hop
    subst hmap
    cases op0 with
    | none => exact absurd hp (by simp)
    | some q =>
        simp only [Option.map] at hp
        injection hp with hp
        subst hp
        unfold stopWorkersProc
        split_ifs <;> rfl

/-- C8 witness: a concrete pool with one running, writable worker that ignores
`EXIT`: `stop_all` clears the map yet leaves the process running, while the
orchestrator's `stop_workers` leaves it not running. -/
theorem pool_teardown_witness :
    (stop_all ⟨[("ocr", ⟨true, true, some "r", false⟩)]⟩).1.workers = [] ∧
    (stopAllProc ⟨true, true, some "r", false⟩).running = true ∧
    (stopWorkersProc ⟨true, true, some "r", false⟩).running = false := by
  have h := pool_teardown ⟨[("ocr", ⟨true, true, some "r", false⟩)]⟩
    [some ⟨true, true, some "r", false⟩]
  refine ⟨h.1, ?_, ?_⟩
  · have h3 := h.2.2.1 ("ocr", ⟨true, true, some "r", false⟩) (by simp)
    simpa using h3
  · exact h.2.2.2 (some (stopWorkersProc ⟨true, true, some "r", false⟩))
      (by simp [stop_workers]) _ rfl

/-- C8 counterexample: after `stop_all` tears the pool down, the worker that
accepted the `EXIT` write but does not exit is still running — there is no
grace period and no forcible termination on that path, refuting "no worker
process started by the pool is still running after teardown returns". -/
theorem stop_all_leaves_worker_running :
    (stop_all ⟨[("ocr", ⟨true, true, some "r", false⟩)]⟩).2 =
      [⟨true, true, some "r", false⟩] ∧
    (⟨true, true, some "r", false⟩ : ProcHandle).running = true :=
  ⟨rfl, rfl⟩

/-- Supported audio extensions (workflow.py line 16). -/
def SUPPORTED_AUDIO_EXTS : List String :=
  [".mp3", ".wav", ".m4a", ".flac", ".ogg", ".aac", ".wma"]

/-- Supported video extensions (workflow.py line 17). -/
def SUPPORTED_VIDEO : List String :=
  [".mp4", ".mkv", ".mov", ".avi", ".wmv", ".webm"]

mutual

/-- Python's `repr`, as `str()` applies it to dict and list contents
(`pyReprItems` and `pyReprPairs` render comma-separated list and dict bodies).
Numbers are rendered through `toString`; their exact spelling is irrelevant to
the claims, which use string values. -/
def pyRepr : JVal → String
  | JVal.null => "None"
  | JVal.bool true => "True"
  | JVal.bool false => "False"
  | JVal.num q => toString q
  | JVal.str s => "'" ++ s ++ "'"
  | JVal.arr xs => "[" ++ pyReprItems xs ++ "]"
  | JVal.obj kvs => "\x7b" ++ pyReprPairs kvs ++ "\x7d"

/-- Comma-separated rendering of a JSON list body. -/
def pyReprItems : List JVal → String
  | [] => ""
  | [x] => pyRepr x
  | x :: y :: xs => pyRepr x ++ ", " ++ pyReprItems (y :: xs)

/-- Comma-separated rendering of a JSON dict body. -/
def pyReprPairs : List (String × JVal) → String
  | [] => ""
  | [(k, v)] => "'" ++ k ++ "': " ++ pyRepr v
  | (k, v) :: y :: xs => "'" ++ k ++ "': " ++ pyRepr v ++ ", " ++ pyReprPairs (y :: xs)

end

/-- `str(result)` on the transcription result: `str(None)` is "None", and a
dict prints as its repr. -/
def pyStrResult : Option (List (String × JVal)) → String
  | none => "None"
  | some d => pyRepr (JVal.obj d)

/-- Python truthiness of the result: `None` and the empty dict are falsy. -/
def truthyResult : Option (List (String × JVal)) → Bool
  | none => false
  | some d => !d.isEmpty

/-- Python membership test `"error" in result` for a dict result. -/
def hasErrorKey : Option (List (String × JVal)) → Bool
  | none => false
  | some d => (d.lookup "error").isSome

/-- `result.get(key)`: `none` when the worker returned no result or the key is
absent. -/
def resultGet (r : Option (List (String × JVal))) (k : String) : Option JVal :=
  r.bind fun d => d.lookup k

/-- Environment of `node_process_media`: whether the ffmpeg extraction step
returns a path (for video inputs), and the transcription worker's response.
The audio worker protocol answers one JSON object per request, so the
response is modelled as an optional dict (`none` for `manager.query`
returning `None`). -/
structure MediaEnv where
  extractOk : Bool
  workerResult : Option (List (String × JVal))

/-- The `rag_ready_data` entry built by `node_process_media` on success
(workflow.py lines 110-116). -/
structure MediaRag where
  source : String
  file_name : String
  language : Option JVal
  duration : Option JVal
  segments : JVal
deriving Repr

/-- Partial state update returned by `node_process_media`: `none` in `error`
or `rag_ready_data` models the key being absent from the returned dict. -/
structure MediaUpdate where
  status : String
  error : Option String
  rag_ready_data : Option MediaRag
deriving Repr

/-- `node_process_media` (workflow.py lines 89-117): video inputs whose audio
extraction fails end the run as failed; a falsy worker result or one holding
an "error" key ends the run as failed with `str(result)` recorded; otherwise
the node returns `completed` with the formatted transcription data. -/
def node_process_media (env : MediaEnv) (ext file_name : String) : MediaUpdate :=
  if SUPPORTED_VIDEO.contains ext && !env.extractOk then
    { status := "failed", error := some "Video extraction failed", rag_ready_data := none }
  else if !truthyResult env.workerResult || hasErrorKey env.workerResult then
    { status := "failed", error := some (pyStrResult env.workerResult),
      rag_ready_data := none }
  else
    { status := "completed", error := none,
      rag_ready_data := some
        { source := "audio_transcription", file_name := file_name,
          language := resultGet env.workerResult "language",
          duration := resultGet env.workerResult "duration",
          segments := (resultGet env.workerResult "blocks").getD (JVal.arr []) } }

/-- Static graph edges added by `workflow.add_edge` (workflow.py lines
252-255); "END" stands for langgraph's END. -/
def workflow_edges : List (String × String) :=
  [("process_media", "END"), ("process_youtube", "END"),
   ("analyze_layout", "enrich_content"), ("enrich_content", "END")]

lemma audio_not_video {ext : String} (h : SUPPORTED_AUDIO_EXTS.contains ext = true) :
    SUPPORTED_VIDEO.contains ext = false := by
  have hmem : ext ∈ SUPPORTED_AUDIO_EXTS := by
    simpa using h
  simp only [SUPPORTED_AUDIO_EXTS, List.mem_cons, List.not_mem_nil, or_false] at hmem
  rcases hmem with rfl | rfl | rfl | rfl | rfl | rfl | rfl <;> rfl

/-- C9: on the media path (an audio input, or a video input whose audio
extraction succeeded), a missing worker result or one carrying an "error" key
ends the run as failed with `str(result)` recorded in the error field and no
transcription data set; a successful result (truthy, no "error" key) ends the
run as completed directly, and the graph's only edge out of `process_media`
goes to END — no enrichment stage follows. -/
theorem node_process_media_spec (env : MediaEnv) (ext file_name : String)
    (hmedia : SUPPORTED_AUDIO_EXTS.contains ext = true ∨
      (SUPPORTED_VIDEO.contains ext = true ∧ env.extractOk = true)) :
    ((env.workerResult = none ∨ hasErrorKey env.workerResult = true) →
        (node_process_media env ext file_name).status = "failed" ∧
        (node_process_media env ext file_name).error =
          some (pyStrResult env.workerResult) ∧
        (node_process_media env ext file_name).rag_ready_data = none) ∧
    ((truthyResult env.workerResult = true ∧ hasErrorKey env.workerResult = false) →
        (node_process_media env ext file_name).status = "completed" ∧
        (node_process_media env ext file_name).error = none ∧
        (node_process_media env ext file_name).rag_ready_data ≠ none) ∧
    (∀ dst, ("process_media", dst) ∈ workflow_edges → dst = "END") := by
  have hvid : (SUPPORTED_VIDEO.contains ext && !env.extractOk) = false := by
    rcases hmedia with h | ⟨-, h⟩
    · rw [audio_not_video h]
      rfl
    · rw [h]
      simp
  refine ⟨?_, ?_, ?_⟩
  · intro hfail
    have hcond : (!truthyResult env.workerResult || hasErrorKey env.workerResult) = true := by
      rcases hfail with h | h
      · rw [h]
        rfl
      · rw [h]
        simp
    unfold node_process_media
    rw [hvid, hcond]
    exact ⟨rfl, rfl, rfl⟩
  · intro ⟨htr, hne⟩
    have hcond : (!truthyResult env.workerResult || hasErrorKey env.workerResult) = false := by
      rw [htr, hne]
      rfl
    unfold node_process_media
    rw [hvid, hcond]
    exact ⟨rfl, rfl, by simp⟩
  · intro dst hdst
    simp only [workflow_edges, List.mem_cons, List.not_mem_nil, or_false,
      Prod.mk.injEq] at hdst
    rcases hdst with h | h | h | h <;> simp_all

/-- C9 witness: spec scenario D — the worker answers a dict with an "error"
key and the run fails with the stringified result recorded; a successful
transcription completes the run with data set. -/
theorem node_process_media_spec_witness :
    (node_process_media ⟨true, some [("error", JVal.str "decode failed")]⟩
        ".mp4" "clip.mp4").status = "failed" ∧
    (node_process_media ⟨true, some [("error", JVal.str "decode failed")]⟩
        ".mp4" "clip.mp4").error = some "\x7b'error': 'decode failed'\x7d" ∧
    (node_process_media ⟨true, some [("error", JVal.str "decode failed")]⟩
        ".mp4" "clip.mp4").rag_ready_data = none ∧
    (node_process_media ⟨true, some [("language", JVal.str "en"),
        ("blocks", JVal.arr [])]⟩ ".wav" "talk.wav").status = "completed" := by
  have h1 := node_process_media_spec ⟨true, some [("error", JVal.str "decode failed")]⟩
    ".mp4" "clip.mp4" (Or.inr ⟨rfl, rfl⟩)
  have h2 := node_process_media_spec ⟨true, some [("language", JVal.str "en"),
    ("blocks", JVal.arr [])]⟩ ".wav" "talk.wav" (Or.inl rfl)
  obtain ⟨hf, -, -⟩ := h1
  obtain ⟨-, hs, -⟩ := h2
  have hferr := hf (Or.inr rfl)
  have hok := hs ⟨rfl, rfl⟩
  refine ⟨hferr.1, ?_, hferr.2.2, hok.1⟩
  rw [hferr.2.1]
  simp only [pyStrResult, pyRepr, pyReprPairs]
  rfl

/-- Python's substring test `pat in s`, over the underlying character list. -/
def strContains (s pat : String) : Bool :=
  s.data.tails.any fun t => pat.data.isPrefixOf t

/-- Environment of the enrichment stage: worker responses keyed by the crop
box sent to them, and which annotated page images exist on disk. The table
worker's response is modelled by its `markdown` field (`none` when
`manager.query` returned a falsy result), the OCR worker's by the list of
`text` fields of its JSON-list response (`none` for a non-list response), the
caption worker's by its `description` field (`none` for a non-dict
response). -/
structure EnrichEnv where
  tableMarkdown : Box → Option String
  ocrTexts : Box → Option (List String)
  vlmDescription : Box → Option String
  imageExists : ℕ → Bool

/-- Low-signal filter of `node_enrich_content` (workflow.py lines 141-144): a
text or title block whose stripped content has fewer than 2 characters is
dropped before enrichment. -/
def lowSignal (b : Block) : Bool :=
  (b.type == "text" || b.type == "title") && decide (b.content.trim.length < 2)

/-- Per-block dispatch of `node_enrich_content` (workflow.py lines 154-217):
degenerate boxes are skipped; a table block with empty or `[IMAGE_BINARY]`
content tries the table worker then falls back to OCR; an image block with
action `crop_image` is captioned; a `send_to_ocr` block is OCR'd; every other
block is left untouched. -/
def enrich_block (env : EnrichEnv) (block : Block) : Block :=
  if decide (block.bbox.x1 ≤ block.bbox.x0) || decide (block.bbox.y1 ≤ block.bbox.y0) then
    block
  else if block.type == "table" then
    let is_empty := block.content.trim == ""
    let is_binary := strContains block.content "[IMAGE_BINARY]"
    if is_empty || is_binary then
      let markdown := (env.tableMarkdown block.bbox).getD ""
      if !(markdown == "") && !(strContains markdown "[TABLE_") then
        { block with content := markdown, action := "local_table_reconstructed" }
      else
        match env.ocrTexts block.bbox with
        | some texts =>
            let detected_text := String.intercalate "\n" texts
            { block with
              content := if !(detected_text.trim == "") then detected_text
                         else "[NO_TEXT_FOUND]",
              action := "table_fallback_ocr" }
        | none => block
    else block
  else if block.action == "crop_image" && block.type == "image" then
    match env.vlmDescription block.bbox with
    | some desc =>
        { block with content := "[IMAGE_DESCRIPTION]\n" ++ desc, action := "vlm_described" }
    | none => block
  else if block.action == "send_to_ocr" then
    match env.ocrTexts block.bbox with
    | some texts =>
        let detected_text := String.intercalate "\n" texts
        if !(detected_text.trim == "") then
          { block with content := detected_text, action := "ocr_extracted" }
        else { block with content := "[OCR_NO_TEXT_FOUND]" }
    | none => block
  else block

/-- One page of layout results, `{page, blocks}`. -/
structure Page where
  page : ℕ
  blocks : List Block
deriving Repr

/-- `node_enrich_content` (workflow.py lines 127-221): per page, apply the
low-signal filter, then — only when the page's annotated image file exists —
enrich each remaining block in place; a page whose image is missing is skipped
(`continue`) and never appended to the output. -/
def node_enrich_content (env : EnrichEnv) (layout_data : List Page) : List Page :=
  (layout_data.filter fun pd => env.imageExists pd.page).map fun pd =>
    { page := pd.page,
      blocks := (pd.blocks.filter fun b => !lowSignal b).map (enrich_block env) }

/-- C10 (amended): enrichment leaves every degenerate-bbox block and every
block matching none of the three dispatch arms completely unchanged, and on
every page whose annotated image exists it neither adds nor removes blocks
after the low-signal filter; a page whose annotated image file is missing is
however dropped from the output entirely. -/
theorem enrich_frame (env : EnrichEnv) (layout_data : List Page) :
    (∀ b : Block, b.bbox.x1 ≤ b.bbox.x0 ∨ b.bbox.y1 ≤ b.bbox.y0 →
        enrich_block env b = b) ∧
    (∀ b : Block, b.type ≠ "table" → ¬(b.action = "crop_image" ∧ b.type = "image") →
        b.action ≠ "send_to_ocr" → enrich_block env b = b) ∧
    (∀ pd ∈ layout_data, env.imageExists pd.page = true →
        (⟨pd.page, (pd.blocks.filter fun b => !lowSignal b).map (enrich_block env)⟩ : Page) ∈
          node_enrich_content env layout_data ∧
        ((pd.blocks.filter fun b => !lowSignal b).map (enrich_block env)).length =
          (pd.blocks.filter fun b => !lowSignal b).length) := by
  refine ⟨?_, ?_, ?_⟩
  · intro b h
    have hcond : (decide (b.bbox.x1 ≤ b.bbox.x0) || decide (b.bbox.y1 ≤ b.bbox.y0)) = true := by
      rcases h with h | h <;> simp [h]
    unfold enrich_block
    rw [hcond]
    rfl
  · intro b h1 h2 h3
    have ht : (b.type == "table") = false := by
      simp [h1]
    have hv : (b.action == "crop_image" && b.type == "image") = false := by
      rw [Bool.and_eq_false_iff]
      by_cases ha : b.action = "crop_image"
      · right
        rw [beq_eq_false_iff_ne]
        exact fun hti => h2 ⟨ha, hti⟩
      · left
        rw [beq_eq_false_iff_ne]
        exact ha
    have ho : (b.action == "send_to_ocr") = false := beq_eq_false_iff_ne.mpr h3
    unfold enrich_block
    rw [ht, hv, ho]
    simp
  · intro pd hpd himg
    constructor
    · unfold node_enrich_content
      exact List.mem_map_of_mem _ (List.mem_filter.mpr ⟨hpd, himg⟩)
    · exact List.length_map _ _

/-- C10 witness: a text block with no matching dispatch arm and a degenerate
table block pass through enrichment unchanged, and a concrete page with an
existing annotated image keeps its post-filter block count. -/
theorem enrich_frame_witness :
    enrich_block ⟨fun _ => some "md", fun _ => some ["t"], fun _ => some "d", fun _ => true⟩
        ⟨"image", ⟨0, 0, 5, 5⟩, "extract_text", "[IMAGE_BINARY]"⟩ =
      ⟨"image", ⟨0, 0, 5, 5⟩, "extract_text", "[IMAGE_BINARY]"⟩ ∧
    enrich_block ⟨fun _ => some "md", fun _ => some ["t"], fun _ => some "d", fun _ => true⟩
        ⟨"table", ⟨3, 1, 3, 7⟩, "extract_table_logic", ""⟩ =
      ⟨"table", ⟨3, 1, 3, 7⟩, "extract_table_logic", ""⟩ ∧
    (⟨1, [⟨"image", ⟨0, 0, 5, 5⟩, "extract_text", "[IMAGE_BINARY]"⟩]⟩ : Page) ∈
      node_enrich_content
        ⟨fun _ => some "md", fun _ => some ["t"], fun _ => some "d", fun _ => true⟩
        [⟨1, [⟨"image", ⟨0, 0, 5, 5⟩, "extract_text", "[IMAGE_BINARY]"⟩]⟩] := by
  have h := enrich_frame
    ⟨fun _ => some "md", fun _ => some ["t"], fun _ => some "d", fun _ => true⟩
    [⟨1, [⟨"image", ⟨0, 0, 5, 5⟩, "extract_text", "[IMAGE_BINARY]"⟩]⟩]
  refine ⟨?_, ?_, ?_⟩
  · exact h.2.1 _ (by decide) (by decide) (by decide)
  · exact h.1 _ (by norm_num)
  · have h3 := (h.2.2 ⟨1, [⟨"image", ⟨0, 0, 5, 5⟩, "extract_text", "[IMAGE_BINARY]"⟩]⟩
      (List.mem_singleton_self _) rfl).1
    have hb : enrich_block
        ⟨fun _ => some "md", fun _ => some ["t"], fun _ => some "d", fun _ => true⟩
        ⟨"image", ⟨0, 0, 5, 5⟩, "extract_text", "[IMAGE_BINARY]"⟩ =
        ⟨"image", ⟨0, 0, 5, 5⟩, "extract_text", "[IMAGE_BINARY]"⟩ :=
      h.2.1 _ (by decide) (by decide) (by decide)
    have hfil : List.filter (fun b => !lowSignal b)
        [(⟨"image", ⟨0, 0, 5, 5⟩, "extract_text", "[IMAGE_BINARY]"⟩ : Block)] =
        [(⟨"image", ⟨0, 0, 5, 5⟩, "extract_text", "[IMAGE_BINARY]"⟩ : Block)] := by
      simp [lowSignal]
    rw [hfil] at h3
    simpa [hb] using h3

/-- C10 counterexample: a page whose annotated image file is missing is
dropped by `node_enrich_content` — its blocks are removed from the output
wholesale, refuting "enrichment never adds or removes blocks from a page". -/
theorem enrich_drops_page_without_image :
    node_enrich_content ⟨fun _ => none, fun _ => none, fun _ => none, fun _ => false⟩
        [⟨1, [⟨"text", ⟨0, 0, 10, 10⟩, "extract_text", "hello"⟩]⟩] = [] :=
  rfl
